import Mathlib

/-!
Verification of the npysearch result-translation layer.

Shallow embedding of `npysearch/__init__.py`: the CIGAR run-length encoder
(`cigarString`), the fixed-period report parser (`writeCSV`), the table
loader (`readCSV`), the FASTA writer (`writeFasta`) and the orchestrator
(`blast`), together with proofs about the spec's claims.

Python strings are modelled as Lean `String`, file contents as lists of
lines (without their trailing newline), the filesystem as an association
list from path to content, machine integers as `Int`/`Nat`, and Python
floats as exact rationals `ℚ` (the report values are short decimals, for
which IEEE semantics and exact semantics agree at the precision the
claims discuss).
-/

set_option maxRecDepth 16384

deriving instance DecidableEq for Except

namespace Npysearch

/-! ## Python string and number primitives -/

/-- Tokenizer loop for `str.split()`: `cur` is the current token's
characters in reverse. -/
def splitWsAux : List Char → List Char → List String
  | [], cur => if cur.isEmpty then [] else [String.mk cur.reverse]
  | c :: cs, cur =>
    if c.isWhitespace then
      if cur.isEmpty then splitWsAux cs [] else String.mk cur.reverse :: splitWsAux cs []
    else splitWsAux cs (c :: cur)

/-- Python `str.split()` with no argument: whitespace-delimited non-empty
tokens. -/
def pySplit (s : String) : List String := splitWsAux s.data []

/-- Python `str.strip()`: whitespace removed from both ends. -/
def pyStrip (s : String) : String :=
  String.mk ((s.data.dropWhile Char.isWhitespace).reverse.dropWhile Char.isWhitespace).reverse

/-- Python `s[n:]`. -/
def pyDrop (s : String) (n : Nat) : String := String.mk (s.data.drop n)

/-- Python `s[:-n]` (empty when `n ≥ len(s)`). -/
def pyDropRight (s : String) (n : Nat) : String :=
  String.mk (s.data.take (s.data.length - n))

/-- Python `sep in line` / `line.index(sep)` success condition. -/
def pyContains (s : String) (c : Char) : Bool := s.data.contains c

/-- Splitting on a single separator character, as `str.split(sep)` with
an explicit separator: `n` separators yield `n + 1` (possibly empty)
segments. -/
def splitChar (sep : Char) : List Char → List (List Char)
  | [] => [[]]
  | c :: cs =>
    match splitChar sep cs with
    | [] => [[]]
    | seg :: segs => if c = sep then [] :: seg :: segs else (c :: seg) :: segs

/-- Digit-list accumulator for `int()` / `float()` parsing. -/
def digitsValAux (acc : Nat) : List Char → Option Nat
  | [] => some acc
  | c :: cs =>
    if c.isDigit then digitsValAux (acc * 10 + (c.toNat - '0'.toNat)) cs
    else none

/-- Value of a non-empty all-digit character list. -/
def digitsVal (cs : List Char) : Option Nat :=
  match cs with
  | [] => none
  | _ => digitsValAux 0 cs

/-- Python `int(s)`: optional sign followed by digits (underscore
separators and non-decimal bases are not modelled; the report tokens never
use them). `None` models `ValueError`. -/
def pyInt (s : String) : Option Int :=
  let t := pyStrip s
  match t.data with
  | '-' :: rest => (digitsVal rest).map (fun n => -(n : Int))
  | '+' :: rest => (digitsVal rest).map (fun n => (n : Int))
  | cs => (digitsVal cs).map (fun n => (n : Int))

/-- A Python float value, kept as an exact unreduced fraction
`(numerator, denominator)`; the report values are short decimals, for
which IEEE semantics and exact semantics agree at the precision the
claims discuss. -/
abbrev PyFloat : Type := Int × Nat

/-- The rational value of a `PyFloat`. -/
def ratVal (x : PyFloat) : ℚ := (x.1 : ℚ) / (x.2 : ℚ)

/-- Division of a parsed float by the literal `100`. -/
def pfDiv100 (x : PyFloat) : PyFloat := (x.1, x.2 * 100)

/-- Python `float(s)` on plain decimal literals: optional sign, digits,
optional dot, digits; at least one digit overall. Exponent, `inf` and
`nan` forms are not modelled (the report tokens never use them). The
result is the exact value `n / 10 ^ (fraction length)`. -/
def pyFloat (s : String) : Option PyFloat :=
  let t := pyStrip s
  let signAndDigits : Int × List Char :=
    match t.data with
    | '-' :: rest => (-1, rest)
    | '+' :: rest => (1, rest)
    | cs => (1, cs)
  let sign := signAndDigits.1
  match splitChar '.' signAndDigits.2 with
  | [a] => (digitsVal a).map (fun n => (sign * (n : Int), 1))
  | [a, b] =>
    if a = [] ∧ b = [] then none
    else
      (digitsValAux 0 (a ++ b)).map
        (fun n => (sign * (n : Int), 10 ^ b.length))
  | _ => none

/-! ## AlignmentEncoder (`cigarString`) -/

/-- Errors of `cigarString`: the explicit length assertion, and the
`IndexError` raised by `alignment[0]` when both inputs are empty. -/
inductive CigarErr where
  | lengthMismatch
  | indexError
  deriving DecidableEq, Repr

/-- The `matcher` dict `{"|": "=", " ": "X", "-": "D"}`; only those three
keys are ever looked up. -/
def matcher (c : Char) : Char :=
  if c = '|' then '=' else if c = ' ' then 'X' else 'D'

/-- The three alignment-classification passes of `cigarString`:
`'|'`/`' '` for match/mismatch, then overriding with `'-'` where the
query, then the target, has a gap. -/
def alignmentOf (q t : List Char) : List Char :=
  let a1 := List.zipWith (fun qc tc => if qc = tc then '|' else ' ') q t
  let a2 := List.zipWith (fun al qc => if qc ≠ '-' then al else qc) a1 q
  List.zipWith (fun al tc => if tc ≠ '-' then al else tc) a2 t

/-- The run-length loop of `cigarString`: `flag` is the current run's
character, `counter` its count so far. -/
def rleAux (flag : Char) (counter : Nat) : List Char → List (Nat × Char)
  | [] => [(counter, flag)]
  | c :: cs =>
    if c = flag then rleAux flag (counter + 1) cs
    else (counter, flag) :: rleAux c 1 cs

/-- `cigarString` up to rendering: the `(count, symbol)` spans, with the
`matcher` symbol substitution applied at emission as in the source loop. -/
def cigarSpans (q t : String) : Except CigarErr (List (Nat × Char)) :=
  if q.length ≠ t.length then .error .lengthMismatch
  else
    match alignmentOf q.data t.data with
    | [] => .error .indexError
    | c :: rest => .ok ((rleAux c 0 (c :: rest)).map (fun p => (p.1, matcher p.2)))

/-- `cigarString(query, target)`: renders each span as
`str(count) + symbol` and concatenates. -/
def cigarString (q t : String) : Except CigarErr String :=
  (cigarSpans q t).map
    (fun spans => spans.foldl (fun s p => s ++ toString p.1 ++ String.singleton p.2) "")

/-- Per-position class in the spec's words: gap `'D'` wherever either
side has `'-'`, else mismatch `'X'` where the characters differ, else
match `'='`. -/
def classOf (a b : Char) : Char :=
  if a = '-' ∨ b = '-' then 'D' else if a ≠ b then 'X' else '='

/-- Expansion of run-length spans back to a per-position class list. -/
def expandSpans (spans : List (Nat × Char)) : List Char :=
  spans.flatMap (fun p => List.replicate p.1 p.2)

/-! ## ReportParser (`writeCSV`)

The raw report is consumed line by line; line `i` is examined according
to `i % 13`. The modulo counter is carried directly (`nextOff`), which is
equivalent to `enumerate` plus `% 13` since the index starts at 0. -/

/-- One emitted csv row. Fields `row[0]`–`row[9]`, `row[11]`, `row[13]`
are kept by the source as the raw strings; `row[10]` is the computed
`int(row[8]) - int(row[9])` and `row[12]` the computed identity
fraction. -/
structure Row where
  queryId : String
  targetId : String
  queryMatchStart : String
  queryMatchEnd : String
  targetMatchStart : String
  targetMatchEnd : String
  queryMatchSeq : String
  targetMatchSeq : String
  numColumns : String
  numMatches : String
  numMismatches : Int
  numGaps : String
  identity : PyFloat
  alignment : String
  deriving DecidableEq, Repr

/-- The accumulating `row = [None] * 14`. -/
structure RowSt where
  f0 : Option String := none
  f1 : Option String := none
  f2 : Option String := none
  f3 : Option String := none
  f4 : Option String := none
  f5 : Option String := none
  f6 : Option String := none
  f7 : Option String := none
  f8 : Option String := none
  f9 : Option String := none
  f10 : Option Int := none
  f11 : Option String := none
  f12 : Option PyFloat := none
  f13 : Option String := none
  deriving DecidableEq, Repr

def emptyRowSt : RowSt := {}

/-- Processing of one report line at block offset `off = i % 13`.
`none` models an uncaught exception (`IndexError` on a missing token,
`ValueError` on a failed conversion, `ValueError` from `line.index("+")`,
the `cigarString` assertion, or `",".join` over an unset field). The
second component records a row emitted at offset 12. -/
def parseStep (off : Nat) (line : String) (st : RowSt) : Option (RowSt × Option Row) :=
  if off = 4 then
    match (pySplit line).get? 2 with
    | none => none
    | some t2 =>
      let v := pyStrip (pyDrop t2 1)
      some ({ st with f0 := some v, f1 := some v }, none)
  else if off = 7 then
    match (pySplit line).get? 1, (pySplit line).getLast?, (pySplit line).get? 3 with
    | some t1, some tl, some t3 =>
      -- `start = line.index("+") + 2` requires a '+' in the line
      if pyContains line '+' then
        some ({ st with f2 := some (pyStrip t1), f3 := some (pyStrip tl),
                        f6 := some (pyStrip t3) }, none)
      else none
    | _, _, _ => none
  else if off = 9 then
    match (pySplit line).get? 1, (pySplit line).getLast?, (pySplit line).get? 3 with
    | some t1, some tl, some t3 =>
      some ({ st with f4 := some (pyStrip t1), f5 := some (pyStrip tl),
                      f7 := some (pyStrip t3) }, none)
    | _, _, _ => none
  else if off = 11 then
    match (pySplit line).get? 0, (pySplit line).get? 2,
          (pySplit line).get? 5, (pySplit line).get? 4 with
    | some t0, some t2, some t5, some t4 =>
      match pyInt (pyStrip t0), pyInt (pyStrip t2) with
      | some c, some n =>
        match pyFloat (pyDropRight (pyDrop t4 1) 3) with
        | some x =>
          match st.f6, st.f7 with
          | some qs, some ts =>
            match cigarString qs ts with
            | .ok cg =>
              some ({ st with f8 := some (pyStrip t0), f9 := some (pyStrip t2),
                              f10 := some (c - n), f11 := some (pyStrip t5),
                              f12 := some (pfDiv100 x), f13 := some cg }, none)
            | .error _ => none
          | _, _ => none
        | none => none
      | _, _ => none
    | _, _, _, _ => none
  else if off = 12 then
    match st.f0, st.f1, st.f2, st.f3, st.f4, st.f5, st.f6,
          st.f7, st.f8, st.f9, st.f10, st.f11, st.f12, st.f13 with
    | some a0, some a1, some a2, some a3, some a4, some a5, some a6,
      some a7, some a8, some a9, some a10, some a11, some a12, some a13 =>
      some (emptyRowSt, some ⟨a0, a1, a2, a3, a4, a5, a6, a7, a8, a9, a10, a11, a12, a13⟩)
    | _, _, _, _, _, _, _, _, _, _, _, _, _, _ => none
  else
    some (st, none)

/-- Successor of the block offset: `i % 13` for the next line. -/
def nextOff (off : Nat) : Nat := if off = 12 then 0 else off + 1

/-- Runs the parser loop over the remaining lines, returning the rows
emitted (in order) and whether the whole run completed without an
exception. -/
def parseRun : List String → Nat → RowSt → List Row → List Row × Bool
  | [], _, _, acc => (acc, true)
  | l :: ls, off, st, acc =>
    match parseStep off l st with
    | none => (acc, false)
    | some (st', none) => parseRun ls (nextOff off) st' acc
    | some (st', some r) => parseRun ls (nextOff off) st' (acc ++ [r])

/-- The rows of a whole report, or `none` when parsing raised. -/
def parseReport (ls : List String) : Option (List Row) :=
  match parseRun ls 0 emptyRowSt [] with
  | (rows, true) => some rows
  | (_, false) => none

/-- The identity value `float(line.split()[4][1:-3]) / 100` computed from
a summary line (block offset 11), as the source computes `row[12]`. -/
def identityFromSummary (line : String) : Option PyFloat :=
  match (pySplit line).get? 4 with
  | some t4 => (pyFloat (pyDropRight (pyDrop t4 1) 3)).map pfDiv100
  | none => none

/-- A line that lacks a token the layout requires at its offset (the
amended failure condition): offsets 4, 7, 9 and 11 need at least 3, 4, 4
and 6 whitespace tokens respectively, and offset 7 additionally needs a
`'+'` for `line.index("+")`. -/
def lineBad (off : Nat) (line : String) : Bool :=
  if off = 4 then (pySplit line).get? 2 = none
  else if off = 7 then (pySplit line).get? 3 = none ∨ pyContains line '+' = false
  else if off = 9 then (pySplit line).get? 3 = none
  else if off = 11 then (pySplit line).get? 5 = none
  else false

/-- The net effect of one full 13-line block: the composition of the
five examined steps (offsets 4, 7, 9, 11, 12; the other eight lines are
skipped unexamined, and the offset-12 step reads no line content). -/
def parseBlock (l4 l7 l9 l11 : String) (st : RowSt) : Option Row := do
  let s1 ← parseStep 4 l4 st
  let s2 ← parseStep 7 l7 s1.1
  let s3 ← parseStep 9 l9 s2.1
  let s4 ← parseStep 11 l11 s3.1
  let s5 ← parseStep 12 "" s4.1
  s5.2

/-! ## Rendering of the persisted csv -/

/-- The fixed csv header. -/
def header : List String :=
  ["QueryId", "TargetId", "QueryMatchStart", "QueryMatchEnd",
   "TargetMatchStart", "TargetMatchEnd", "QueryMatchSeq", "TargetMatchSeq",
   "NumColumns", "NumMatches", "NumMismatches", "NumGaps", "Identity", "Alignment"]

/-- `",".join(header)`. -/
def headerLine : String := String.intercalate "," header

/-- Exact decimal rendering of a parsed float value, standing in for
Python's `str(float)`: the identity values are short decimals, whose
shortest round-tripping representation is the decimal itself. -/
def decimalRepr (x : PyFloat) : String :=
  let sign := if x.1 < 0 then "-" else ""
  let num := x.1.natAbs
  let den := x.2
  match (List.range 41).find? (fun k => decide (den ∣ 10 ^ k)) with
  | none => sign ++ toString num ++ "/" ++ toString den
  | some k =>
    let m := num * (10 ^ k / den)
    let ip := m / 10 ^ k
    let fp := toString (m % 10 ^ k)
    let padded := String.mk (List.replicate (k - fp.length) '0') ++ fp
    let trimmed := String.mk (padded.data.reverse.dropWhile (· = '0')).reverse
    if trimmed.data.isEmpty then sign ++ toString ip ++ ".0"
    else sign ++ toString ip ++ "." ++ trimmed

/-- `",".join(row)`. -/
def renderRow (r : Row) : String :=
  String.intercalate ","
    [r.queryId, r.targetId, r.queryMatchStart, r.queryMatchEnd,
     r.targetMatchStart, r.targetMatchEnd, r.queryMatchSeq, r.targetMatchSeq,
     r.numColumns, r.numMatches, toString r.numMismatches, r.numGaps,
     decimalRepr r.identity, r.alignment]

/-! ## Filesystem model

Files are modelled as an association list from path to content (list of
lines). A write prepends, shadowing any earlier entry; a remove drops
every entry with the path. -/

abbrev FS : Type := List (String × List String)

def fsRead : FS → String → Option (List String)
  | [], _ => none
  | (q, c) :: rest, p => if p = q then some c else fsRead rest p

def fsWrite (fs : FS) (p : String) (c : List String) : FS := (p, c) :: fs

def fsRemove : FS → String → FS
  | [], _ => []
  | e :: fs, p => if e.1 = p then fsRemove fs p else e :: fsRemove fs p

def fsExists (fs : FS) (p : String) : Bool := (fsRead fs p).isSome

/-! ## `writeCSV` over the filesystem -/

/-- `writeCSV` failures: the report file missing (`IOError` from
`open`), or an exception while parsing a line. In both cases the csv file
has already been created and holds the header plus the rows emitted
before the exception. -/
inductive CsvErr where
  | fileNotFound
  | malformed
  deriving DecidableEq, Repr

def writeCSVModel (fs : FS) (filepath csvPath : String) : FS × Option CsvErr :=
  match fsRead fs filepath with
  | none => (fsWrite fs csvPath [headerLine], some .fileNotFound)
  | some ls =>
    let res := parseRun ls 0 emptyRowSt []
    (fsWrite fs csvPath (headerLine :: res.1.map renderRow),
     if res.2 then none else some .malformed)

/-! ## TableAssembler (`readCSV`) -/

/-- One typed column of the result table. -/
inductive Col where
  | strs (vs : List String)
  | ints (vs : List Int)
  | floats (vs : List PyFloat)
  deriving DecidableEq, Repr

abbrev Table : Type := List (String × Col)

/-- `list(map(list, zip(*data)))`: `zip` of the rows, truncating at the
shortest row; `zip()` of no rows is empty. -/
def pyTranspose (rows : List (List String)) : List (List String) :=
  match rows with
  | [] => []
  | r :: rs =>
    let n := rs.foldl (fun m row => min m row.length) r.length
    (List.range n).map (fun j => rows.map (fun row => row.getD j ""))

def intIndices : List Nat := [2, 3, 4, 5, 8, 9, 10, 11]

/-- The two coercion comprehensions of `readCSV`: columns at
`intIndices` through `int`, column 12 through `float`; `none` models the
`ValueError` of a failed conversion. -/
def convertCols : Nat → List (List String) → Option (List Col)
  | _, [] => some []
  | i, col :: rest => do
    let c ←
      if i ∈ intIndices then (col.mapM pyInt).map Col.ints
      else if i = 12 then (col.mapM pyFloat).map Col.floats
      else some (Col.strs col)
    let cs ← convertCols (i + 1) rest
    pure (c :: cs)

/-- `readCSV` on the file's lines: header from the first line, data rows
from the rest, transposition, type coercion, then `dict(zip(header,
data))` — `zip` truncates to the shorter of the two lists. -/
def readCSVModel (ls : List String) : Option Table :=
  let hdr := (splitChar ',' (pyStrip (ls.headD "")).data).map String.mk
  let data := ls.tail.map (fun l => (splitChar ',' (pyStrip l).data).map String.mk)
  (convertCols 0 (pyTranspose data)).map (fun tcols => hdr.zip tcols)

/-! ## `writeFasta` -/

/-- `writeFasta` outcomes: the `wrapAfter` assertion, and the `TypeError`
raised in the wrapping branch by `len(sequences[sequence_name],
wrapAfter)` (two arguments to `len`). -/
inductive FastaErr where
  | assertionError
  | typeError
  deriving DecidableEq, Repr

/-- `writeFasta(filepath, sequences, wrapAfter)`: the lines written to
the file before returning or raising, and the exception if any. In the
wrapping branch the first iteration writes the `"> "` header line and
then raises `TypeError` on the two-argument `len` call before any
sequence line is produced. -/
def writeFasta (sequences : List (String × String)) (wrapAfter : Int) :
    List String × Option FastaErr :=
  if wrapAfter < 0 then ([], some .assertionError)
  else if wrapAfter = 0 then
    (sequences.flatMap (fun e => ["> " ++ e.1, e.2]), none)
  else
    match sequences with
    | [] => ([], none)
    | e :: _ => (["> " ++ e.1], some .typeError)

/-- Content staged for an in-memory mapping (`writeFasta` with the
default `wrapAfter = 0`). -/
def fastaLines (d : List (String × String)) : List String := (writeFasta d 0).1

/-! ## SearchOrchestrator (`blast`) -/

/-- A query or database argument: an existing file path or an in-memory
id → sequence mapping (Python dicts preserve insertion order). -/
inductive BlastInput where
  | path (p : String)
  | dict (d : List (String × String))
  deriving DecidableEq, Repr

/-- Which engine operation was dispatched (`dna_blast` honors the
`strand` argument). -/
inductive EngineCall where
  | dna (strand : String)
  | protein
  deriving DecidableEq, Repr

inductive BlastErr where
  | queryNotFound
  | databaseNotFound
  | reportNotFound
  | malformedReport
  | csvMissing
  | tableError
  deriving DecidableEq, Repr

inductive BlastRet where
  | csvFile (p : String)
  | table (t : Table)
  deriving DecidableEq, Repr

structure BlastOut where
  fs : FS
  calls : List EngineCall
  result : Except BlastErr BlastRet

/-- Input resolution for one argument: an existing path is used as-is
(not owned); a mapping is serialized to the timestamp-derived staging
file (owned). `none` models the `IOError` for a missing path. -/
def stageInput (fs : FS) (inp : BlastInput) (stagingName : String) :
    Option (FS × String × Bool) :=
  match inp with
  | .path p => if fsExists fs p then some (fs, p, false) else none
  | .dict d => some (fsWrite fs stagingName (fastaLines d), stagingName, true)

/-- The return policy of `blast`: hand back the csv path, or load the
table with `readCSV`, delete the csv, and hand back the table. -/
def blastReturn (fs7 : FS) (calls : List EngineCall) (csvPath : String)
    (outputToFile : Bool) : BlastOut :=
  if outputToFile then ⟨fs7, calls, .ok (.csvFile csvPath)⟩
  else
    match fsRead fs7 csvPath with
    | none => ⟨fs7, calls, .error .csvMissing⟩
    | some csvLs =>
      match readCSVModel csvLs with
      | none => ⟨fs7, calls, .error .tableError⟩
      | some t => ⟨fsRemove fs7 csvPath, calls, .ok (.table t)⟩

/-- The part of `blast` after engine dispatch: `writeCSV` on the report,
then the success-path cleanup (`os.remove` of owned staging inputs and of
the report), then the return policy. -/
def blastTail (fs3 : FS) (calls : List EngineCall) (queryPath : String) (ownedQ : Bool)
    (databasePath : String) (ownedDb : Bool) (outputToFile : Bool)
    (outputPath csvPath : String) : BlastOut :=
  match writeCSVModel fs3 outputPath csvPath with
  | (fs4, some .fileNotFound) => ⟨fs4, calls, .error .reportNotFound⟩
  | (fs4, some .malformed) => ⟨fs4, calls, .error .malformedReport⟩
  | (fs4, none) =>
    let fs5 := if ownedQ then fsRemove fs4 queryPath else fs4
    let fs6 := if ownedDb then fsRemove fs5 databasePath else fs5
    blastReturn (fsRemove fs6 outputPath) calls csvPath outputToFile

/-- The `blast` orchestrator. `ts` is the `startTime` timestamp string,
`ts2` the timestamp taken when naming the csv, and `engineReport` the
report the opaque engine writes when dispatched. Engine dispatch happens
only for the two recognized alphabets; an unrecognized alphabet simply
skips the engine (no exception at dispatch). -/
def blastModel (fs0 : FS) (query database : BlastInput) (alphabet strand : String)
    (outputToFile : Bool) (ts ts2 : String) (engineReport : List String) : BlastOut :=
  match stageInput fs0 query ("query_" ++ ts ++ ".fasta") with
  | none => ⟨fs0, [], .error .queryNotFound⟩
  | some (fs1, queryPath, ownedQ) =>
    match stageInput fs1 database ("database_" ++ ts ++ ".fasta") with
    | none => ⟨fs1, [], .error .databaseNotFound⟩
    | some (fs2, databasePath, ownedDb) =>
      let outputPath := "output_" ++ ts ++ ".txt"
      let dispatch :=
        if alphabet = "nucleotide" then (fsWrite fs2 outputPath engineReport, [EngineCall.dna strand])
        else if alphabet = "protein" then (fsWrite fs2 outputPath engineReport, [EngineCall.protein])
        else (fs2, [])
      blastTail dispatch.1 dispatch.2 queryPath ownedQ databasePath ownedDb outputToFile
        outputPath ("output_" ++ ts2 ++ ".csv")

/-! ## Predicates used by the invariant proofs -/

/-- Per-position class as the three passes compute it. -/
def preClass (a b : Char) : Char :=
  if a = '-' then '-' else if b = '-' then '-' else if a = b then '|' else ' '

/-- Consistency of the accumulating row: whenever `row[10]` has been
set, it was computed as `int(row[8]) - int(row[9])` from the tokens then
stored in `row[8]` and `row[9]`. -/
def stOk (st : RowSt) : Prop :=
  ∀ m, st.f10 = some m →
    ∃ c n s8 s9, st.f8 = some s8 ∧ st.f9 = some s9 ∧
      pyInt s8 = some c ∧ pyInt s9 = some n ∧ m = c - n

/-- The derived-count property of an emitted row: `NumMismatches` is the
difference of the integer values of the stored `NumColumns` and
`NumMatches` tokens. -/
def rowOk (r : Row) : Prop :=
  ∃ c n, pyInt r.numColumns = some c ∧ pyInt r.numMatches = some n ∧
    r.numMismatches = c - n

/-! ## Lemmas about the run-length encoder -/

theorem alignmentOf_eq (q : List Char) :
    ∀ t, alignmentOf q t = List.zipWith preClass q t := by
  induction q with
  | nil => intro t; cases t <;> rfl
  | cons qc q' ih =>
    intro t
    cases t with
    | nil => rfl
    | cons tc t' =>
      have hih := ih t'
      simp only [alignmentOf, List.zipWith] at hih ⊢
      rw [hih]
      congr 1
      by_cases hq : qc = '-' <;> by_cases ht : tc = '-' <;> by_cases he : qc = tc <;>
        simp [preClass, hq, ht, he]

theorem zipWith_preClass_mem (q : List Char) :
    ∀ t x, x ∈ List.zipWith preClass q t → x = '|' ∨ x = ' ' ∨ x = '-' := by
  induction q with
  | nil => intro t x hx; simp at hx
  | cons qc q' ih =>
    intro t x hx
    cases t with
    | nil => simp at hx
    | cons tc t' =>
      simp only [List.zipWith, List.mem_cons] at hx
      rcases hx with rfl | hx
      · unfold preClass; split
        · exact Or.inr (Or.inr rfl)
        split
        · exact Or.inr (Or.inr rfl)
        split
        · exact Or.inl rfl
        · exact Or.inr (Or.inl rfl)
      · exact ih t' x hx

theorem rleAux_expand (l : List Char) :
    ∀ flag n, expandSpans (rleAux flag n l) = List.replicate n flag ++ l := by
  induction l with
  | nil => intro flag n; simp [rleAux, expandSpans]
  | cons c cs ih =>
    intro flag n
    by_cases h : c = flag
    · subst h
      rw [rleAux, if_pos rfl, ih, List.replicate_succ', List.append_assoc,
          List.singleton_append]
    · rw [rleAux, if_neg h]
      have : expandSpans ((n, flag) :: rleAux c 1 cs) =
          List.replicate n flag ++ expandSpans (rleAux c 1 cs) := by
        simp [expandSpans]
      rw [this, ih, List.replicate_one, List.singleton_append]

theorem rleAux_pos (l : List Char) :
    ∀ flag n, 0 < n → ∀ p ∈ rleAux flag n l, 0 < p.1 := by
  induction l with
  | nil => intro flag n hn p hp; simp [rleAux] at hp; subst hp; exact hn
  | cons c cs ih =>
    intro flag n hn p hp
    by_cases h : c = flag
    · rw [h, rleAux, if_pos rfl] at hp
      exact ih flag (n + 1) (Nat.succ_pos n) p hp
    · rw [rleAux, if_neg h] at hp
      rcases List.mem_cons.mp hp with rfl | hp'
      · exact hn
      · exact ih c 1 Nat.one_pos p hp'

theorem rleAux_head (l : List Char) :
    ∀ flag n, ∃ m rest, rleAux flag n l = (m, flag) :: rest := by
  induction l with
  | nil => intro flag n; exact ⟨n, [], rfl⟩
  | cons c cs ih =>
    intro flag n
    by_cases h : c = flag
    · rw [h, rleAux, if_pos rfl]; exact ih flag (n + 1)
    · rw [rleAux, if_neg h]; exact ⟨n, rleAux c 1 cs, rfl⟩

theorem rleAux_chain (l : List Char) :
    ∀ flag n, (rleAux flag n l).Chain' (fun a b => a.2 ≠ b.2) := by
  induction l with
  | nil => intro flag n; simp [rleAux]
  | cons c cs ih =>
    intro flag n
    by_cases h : c = flag
    · rw [h, rleAux, if_pos rfl]; exact ih flag (n + 1)
    · rw [rleAux, if_neg h]
      obtain ⟨m, rest, hr⟩ := rleAux_head cs c 1
      rw [hr]
      exact List.chain'_cons.mpr ⟨fun he => h he.symm, hr ▸ ih c 1⟩

theorem rleAux_snd (l : List Char) :
    ∀ flag n p, p ∈ rleAux flag n l → p.2 = flag ∨ p.2 ∈ l := by
  induction l with
  | nil => intro flag n p hp; simp [rleAux] at hp; subst hp; exact Or.inl rfl
  | cons c cs ih =>
    intro flag n p hp
    by_cases h : c = flag
    · rw [h, rleAux, if_pos rfl] at hp
      rcases ih flag (n + 1) p hp with h' | h'
      · exact Or.inl h'
      · exact Or.inr (List.mem_cons_of_mem c h')
    · rw [rleAux, if_neg h] at hp
      rcases List.mem_cons.mp hp with rfl | hp'
      · exact Or.inl rfl
      · rcases ih c 1 p hp' with h' | h'
        · exact Or.inr (h' ▸ List.mem_cons_self c cs)
        · exact Or.inr (List.mem_cons_of_mem c h')

theorem expandSpans_map (f : Char → Char) (spans : List (Nat × Char)) :
    expandSpans (spans.map (fun p => (p.1, f p.2))) = (expandSpans spans).map f := by
  induction spans with
  | nil => rfl
  | cons p ps ih => simp [expandSpans, List.map_replicate] at ih ⊢; rw [ih]

theorem matcher_preClass (a b : Char) : matcher (preClass a b) = classOf a b := by
  by_cases hq : a = '-' <;> by_cases ht : b = '-' <;> by_cases he : a = b <;>
    simp_all [matcher, preClass, classOf]

theorem chain'_snd_map (f : Char → Char) (S : Char → Prop)
    (hf : ∀ a b, S a → S b → a ≠ b → f a ≠ f b) :
    ∀ l : List (Nat × Char), (∀ p ∈ l, S p.2) →
      l.Chain' (fun a b => a.2 ≠ b.2) →
      (l.map (fun p => (p.1, f p.2))).Chain' (fun a b => a.2 ≠ b.2) := by
  intro l
  induction l with
  | nil => intro _ _; simp
  | cons x rest ih =>
    intro hS hc
    cases rest with
    | nil => simp
    | cons y rest' =>
      obtain ⟨hxy, hc'⟩ := List.chain'_cons.mp hc
      refine List.chain'_cons.mpr ⟨?_, ?_⟩
      · exact hf x.2 y.2 (hS x (List.mem_cons_self _ _))
          (hS y (List.mem_cons_of_mem _ (List.mem_cons_self _ _))) hxy
      · exact ih (fun p hp => hS p (List.mem_cons_of_mem _ hp)) hc'

theorem matcher_inj_on (a b : Char)
    (ha : a = '|' ∨ a = ' ' ∨ a = '-') (hb : b = '|' ∨ b = ' ' ∨ b = '-')
    (hne : a ≠ b) : matcher a ≠ matcher b := by
  rcases ha with rfl | rfl | rfl <;> rcases hb with rfl | rfl | rfl <;>
    simp_all [matcher]

theorem string_length_data (s : String) : s.length = s.data.length := rfl

theorem string_ne_empty_data {s : String} (h : s ≠ "") : s.data ≠ [] := by
  intro hd
  apply h
  cases s
  simp_all

/-- Expanding the spans `cigarSpans` computes reproduces the spec's
per-position classification, every count is positive, and adjacent spans
never share a class. -/
theorem cigarSpans_roundtrip (q t : String)
    (hlen : q.length = t.length) (hne : q ≠ "") :
    ∃ spans, cigarSpans q t = .ok spans ∧
      expandSpans spans = List.zipWith classOf q.data t.data ∧
      (∀ p ∈ spans, 0 < p.1) ∧
      spans.Chain' (fun a b => a.2 ≠ b.2) := by
  have hlen' : q.data.length = t.data.length := hlen
  have hq : q.data ≠ [] := string_ne_empty_data hne
  obtain ⟨c, rest, hal⟩ : ∃ c rest, alignmentOf q.data t.data = c :: rest := by
    rw [alignmentOf_eq]
    cases hqd : q.data with
    | nil => exact absurd hqd hq
    | cons a as =>
      cases htd : t.data with
      | nil => rw [hqd, htd] at hlen'; simp at hlen'
      | cons b bs => exact ⟨_, _, rfl⟩
  have halpha : ∀ x ∈ c :: rest, x = '|' ∨ x = ' ' ∨ x = '-' := by
    intro x hx
    have : x ∈ List.zipWith preClass q.data t.data := by
      rw [← alignmentOf_eq, hal]; exact hx
    exact zipWith_preClass_mem q.data t.data x this
  refine ⟨(rleAux c 0 (c :: rest)).map (fun p => (p.1, matcher p.2)), ?_, ?_, ?_, ?_⟩
  · unfold cigarSpans
    rw [if_neg (by rw [hlen]; exact fun h => h rfl), hal]
  · rw [expandSpans_map, rleAux_expand, List.replicate_zero, List.nil_append, ← hal,
        alignmentOf_eq, List.map_zipWith]
    simp only [matcher_preClass]
  · intro p hp
    rw [show rleAux c 0 (c :: rest) = rleAux c 1 rest by rw [rleAux, if_pos rfl]] at hp
    obtain ⟨p', hp', hpe⟩ := List.mem_map.mp hp
    have := rleAux_pos rest c 1 Nat.one_pos p' hp'
    rw [← hpe]
    exact this
  · refine chain'_snd_map matcher (fun x => x = '|' ∨ x = ' ' ∨ x = '-')
      matcher_inj_on _ ?_ (rleAux_chain (c :: rest) c 0)
    intro p hp
    rcases rleAux_snd (c :: rest) c 0 p hp with h | h
    · exact h ▸ halpha c (List.mem_cons_self c rest)
    · exact halpha p.2 h

/-! ## Claim C1 and C6 theorems -/

/-- Claim C1: for every pair of equal-length non-empty strings, expanding
the run-length spans produced by `cigarSpans` (whose rendering is
`cigarString`) reproduces exactly the per-position classification: gap
`'D'` wherever `query[i]` or `target[i]` is `'-'`, else mismatch `'X'`
where they differ, else match `'='`; every count is positive and adjacent
spans never share a class. -/
theorem cigar_roundtrip (q t : String)
    (hlen : q.length = t.length) (hne : q ≠ "") :
    ∃ spans, cigarSpans q t = .ok spans ∧
      expandSpans spans = List.zipWith classOf q.data t.data ∧
      (∀ p ∈ spans, 0 < p.1) ∧
      spans.Chain' (fun a b => a.2 ≠ b.2) :=
  cigarSpans_roundtrip q t hlen hne

/-- Witness for C1 at the spec's concrete example `("AC-T", "ACGT")`. -/
theorem cigar_roundtrip_witness :
    ∃ spans, cigarSpans "AC-T" "ACGT" = .ok spans ∧
      expandSpans spans = List.zipWith classOf "AC-T".data "ACGT".data ∧
      (∀ p ∈ spans, 0 < p.1) ∧
      spans.Chain' (fun a b => a.2 ≠ b.2) :=
  cigar_roundtrip "AC-T" "ACGT" (by decide) (by decide)

/-- Claim C6 counterexample: on the empty pair, `cigarString` does not
fail with the length-mismatch error — the equal-length assertion passes
and `alignment[0]` raises an `IndexError` instead. -/
theorem cigarString_empty_cex :
    cigarString "" "" = .error .indexError ∧
    cigarString "" "" ≠ .error .lengthMismatch := by
  constructor
  · rfl
  · intro h
    rw [show cigarString "" "" = .error .indexError from rfl] at h
    simp at h

/-- Claim C6 (amended): the encoder fails with the length-mismatch error
whenever the two strings have different lengths; two empty strings also
fail, but with the index error raised by reading the first character of
the empty alignment, not with the length-mismatch error. -/
theorem cigarString_precondition_errors :
    (∀ q t : String, q.length ≠ t.length → cigarString q t = .error .lengthMismatch) ∧
    cigarString "" "" = .error .indexError := by
  constructor
  · intro q t h
    unfold cigarString cigarSpans
    rw [if_pos h]
    rfl
  · rfl

/-- Witness for the amended C6 at a concrete unequal-length pair. -/
theorem cigarString_precondition_errors_witness :
    cigarString "a" "" = .error .lengthMismatch :=
  cigarString_precondition_errors.1 "a" "" (by decide)

/-! ## Block-level lemmas about the report parser -/

theorem parseStep_em_of_ne12 {off : Nat} (hoff : off ≠ 12) (l : String) (st : RowSt)
    (pr : RowSt × Option Row) (h : parseStep off l st = some pr) : pr.2 = none := by
  unfold parseStep at h
  split_ifs at h
  all_goals
    first
      | exact Option.noConfusion h
      | exact absurd (by assumption) hoff
      | ((try dsimp only at h)
         (repeat' split at h) <;>
           first
             | exact Option.noConfusion h
             | (injection h with h'; rw [← h']))

theorem parseStep_12_em (l : String) (st : RowSt) (pr : RowSt × Option Row)
    (h : parseStep 12 l st = some pr) : ∃ r, pr = (emptyRowSt, some r) := by
  unfold parseStep at h
  rw [if_neg (by decide : ¬(12 : Nat) = 4), if_neg (by decide : ¬(12 : Nat) = 7),
      if_neg (by decide : ¬(12 : Nat) = 9), if_neg (by decide : ¬(12 : Nat) = 11),
      if_pos (rfl : (12 : Nat) = 12)] at h
  split at h
  · injection h with h'
    exact ⟨_, h'.symm⟩
  · exact Option.noConfusion h

theorem parseRun_block (l0 l1 l2 l3 l4 l5 l6 l7 l8 l9 l10 l11 l12 : String)
    (rest : List String) (st : RowSt) (acc : List Row) :
    parseRun (l0 :: l1 :: l2 :: l3 :: l4 :: l5 :: l6 :: l7 :: l8 :: l9 ::
              l10 :: l11 :: l12 :: rest) 0 st acc =
      match parseBlock l4 l7 l9 l11 st with
      | none => (acc, false)
      | some r => parseRun rest 0 emptyRowSt (acc ++ [r]) := by
  have e0 : parseRun (l0 :: l1 :: l2 :: l3 :: l4 :: l5 :: l6 :: l7 :: l8 :: l9 ::
      l10 :: l11 :: l12 :: rest) 0 st acc =
      parseRun (l4 :: l5 :: l6 :: l7 :: l8 :: l9 :: l10 :: l11 :: l12 :: rest) 4 st acc := rfl
  have e1 : parseRun (l4 :: l5 :: l6 :: l7 :: l8 :: l9 :: l10 :: l11 :: l12 :: rest)
      4 st acc = match parseStep 4 l4 st with
        | none => (acc, false)
        | some (st', none) => parseRun (l5 :: l6 :: l7 :: l8 :: l9 :: l10 :: l11 ::
            l12 :: rest) 5 st' acc
        | some (st', some r) => parseRun (l5 :: l6 :: l7 :: l8 :: l9 :: l10 :: l11 ::
            l12 :: rest) 5 st' (acc ++ [r]) := rfl
  rw [e0, e1]
  cases h4 : parseStep 4 l4 st with
  | none => simp [parseBlock, h4]
  | some s1 =>
    have h4e := parseStep_em_of_ne12 (by decide) l4 st s1 h4
    obtain ⟨st1, em1⟩ := s1
    simp only at h4e
    subst h4e
    dsimp only
    have e2 : parseRun (l5 :: l6 :: l7 :: l8 :: l9 :: l10 :: l11 :: l12 :: rest)
        5 st1 acc = parseRun (l7 :: l8 :: l9 :: l10 :: l11 :: l12 :: rest) 7 st1 acc := rfl
    have e3 : parseRun (l7 :: l8 :: l9 :: l10 :: l11 :: l12 :: rest) 7 st1 acc =
        match parseStep 7 l7 st1 with
        | none => (acc, false)
        | some (st', none) => parseRun (l8 :: l9 :: l10 :: l11 :: l12 :: rest) 8 st' acc
        | some (st', some r) => parseRun (l8 :: l9 :: l10 :: l11 :: l12 :: rest) 8 st'
            (acc ++ [r]) := rfl
    rw [e2, e3]
    cases h7 : parseStep 7 l7 st1 with
    | none => simp [parseBlock, h4, h7]
    | some s2 =>
      have h7e := parseStep_em_of_ne12 (by decide) l7 st1 s2 h7
      obtain ⟨st2, em2⟩ := s2
      simp only at h7e
      subst h7e
      dsimp only
      have e4 : parseRun (l8 :: l9 :: l10 :: l11 :: l12 :: rest) 8 st2 acc =
          parseRun (l9 :: l10 :: l11 :: l12 :: rest) 9 st2 acc := rfl
      have e5 : parseRun (l9 :: l10 :: l11 :: l12 :: rest) 9 st2 acc =
          match parseStep 9 l9 st2 with
          | none => (acc, false)
          | some (st', none) => parseRun (l10 :: l11 :: l12 :: rest) 10 st' acc
          | some (st', some r) => parseRun (l10 :: l11 :: l12 :: rest) 10 st'
              (acc ++ [r]) := rfl
      rw [e4, e5]
      cases h9 : parseStep 9 l9 st2 with
      | none => simp [parseBlock, h4, h7, h9]
      | some s3 =>
        have h9e := parseStep_em_of_ne12 (by decide) l9 st2 s3 h9
        obtain ⟨st3, em3⟩ := s3
        simp only at h9e
        subst h9e
        dsimp only
        have e6 : parseRun (l10 :: l11 :: l12 :: rest) 10 st3 acc =
            parseRun (l11 :: l12 :: rest) 11 st3 acc := rfl
        have e7 : parseRun (l11 :: l12 :: rest) 11 st3 acc =
            match parseStep 11 l11 st3 with
            | none => (acc, false)
            | some (st', none) => parseRun (l12 :: rest) 12 st' acc
            | some (st', some r) => parseRun (l12 :: rest) 12 st' (acc ++ [r]) := rfl
        rw [e6, e7]
        cases h11 : parseStep 11 l11 st3 with
        | none => simp [parseBlock, h4, h7, h9, h11]
        | some s4 =>
          have h11e := parseStep_em_of_ne12 (by decide) l11 st3 s4 h11
          obtain ⟨st4, em4⟩ := s4
          simp only at h11e
          subst h11e
          dsimp only
          have h12same : parseStep 12 l12 st4 = parseStep 12 "" st4 := rfl
          have e8 : parseRun (l12 :: rest) 12 st4 acc =
              match parseStep 12 l12 st4 with
              | none => (acc, false)
              | some (st', none) => parseRun rest 0 st' acc
              | some (st', some r) => parseRun rest 0 st' (acc ++ [r]) := rfl
          rw [e8, h12same]
          cases h12 : parseStep 12 "" st4 with
          | none => simp [parseBlock, h4, h7, h9, h11, h12]
          | some s5 =>
            obtain ⟨r, hr⟩ := parseStep_12_em "" st4 s5 h12
            subst hr
            dsimp only
            simp [parseBlock, h4, h7, h9, h11, h12]

/-! ## Filesystem lemmas -/

theorem fsRead_write_self (fs : FS) (p : String) (c : List String) :
    fsRead (fsWrite fs p c) p = some c := by
  simp [fsRead, fsWrite]

theorem fsRead_write_ne (fs : FS) (p q : String) (c : List String) (h : q ≠ p) :
    fsRead (fsWrite fs p c) q = fsRead fs q := by
  simp [fsRead, fsWrite, h]

theorem fsRead_remove_self (fs : FS) (p : String) :
    fsRead (fsRemove fs p) p = none := by
  induction fs with
  | nil => rfl
  | cons e fs ih =>
    by_cases he : e.1 = p
    · simpa [fsRemove, he] using ih
    · have hne : ¬p = e.1 := fun hp => he hp.symm
      simpa [fsRemove, fsRead, he, hne] using ih

theorem fsRead_remove_ne (fs : FS) (p q : String) (h : q ≠ p) :
    fsRead (fsRemove fs p) q = fsRead fs q := by
  induction fs with
  | nil => rfl
  | cons e fs ih =>
    by_cases he : e.1 = p
    · have hq : ¬q = e.1 := fun hq => h (hq.trans he)
      simpa [fsRemove, fsRead, he, hq, h] using ih
    · by_cases hq : q = e.1
      · simp [fsRemove, fsRead, he, hq]
      · simpa [fsRemove, fsRead, he, hq] using ih

/-! ## Row-count lemma for the parser -/

theorem parseRun_length (k : Nat) : ∀ (ls : List String) (st : RowSt) (acc : List Row),
    ls.length = 13 * k → (parseRun ls 0 st acc).2 = true →
    (parseRun ls 0 st acc).1.length = acc.length + k := by
  induction k with
  | zero =>
    intro ls st acc hlen hok
    have : ls = [] := List.eq_nil_of_length_eq_zero (by omega)
    subst this
    simp [parseRun]
  | succ k ih =>
    intro ls st acc hlen hok
    rcases ls with _ | ⟨l0, _ | ⟨l1, _ | ⟨l2, _ | ⟨l3, _ | ⟨l4, _ | ⟨l5, _ | ⟨l6,
      _ | ⟨l7, _ | ⟨l8, _ | ⟨l9, _ | ⟨l10, _ | ⟨l11, _ | ⟨l12, rest⟩⟩⟩⟩⟩⟩⟩⟩⟩⟩⟩⟩⟩ <;>
      (try (exfalso; simp only [List.length_cons, List.length_nil] at hlen; omega))
    rw [parseRun_block] at hok ⊢
    cases hb : parseBlock l4 l7 l9 l11 st with
    | none => rw [hb] at hok; simp at hok
    | some r =>
      rw [hb] at hok
      dsimp only at hok ⊢
      have hrest : rest.length = 13 * k := by
        simp only [List.length_cons] at hlen; omega
      rw [ih rest emptyRowSt (acc ++ [r]) hrest hok]
      simp
      omega

/-! ## Content inversion lemmas for the examined offsets -/

theorem parseStep_11_inv (l : String) (st : RowSt) (pr : RowSt × Option Row)
    (h : parseStep 11 l st = some pr) :
    ∃ t0 t2 t4 c n x,
      (pySplit l).get? 0 = some t0 ∧ (pySplit l).get? 2 = some t2 ∧
      (pySplit l).get? 4 = some t4 ∧
      pyInt (pyStrip t0) = some c ∧ pyInt (pyStrip t2) = some n ∧
      pyFloat (pyDropRight (pyDrop t4 1) 3) = some x ∧
      pr.1.f8 = some (pyStrip t0) ∧ pr.1.f9 = some (pyStrip t2) ∧
      pr.1.f10 = some (c - n) ∧ pr.1.f12 = some (pfDiv100 x) := by
  unfold parseStep at h
  rw [if_neg (by decide : ¬(11 : Nat) = 4), if_neg (by decide : ¬(11 : Nat) = 7),
      if_neg (by decide : ¬(11 : Nat) = 9), if_pos (rfl : (11 : Nat) = 11)] at h
  (repeat' split at h) <;>
    first
      | exact Option.noConfusion h
      | (injection h with h'
         exact ⟨_, _, _, _, _, _, by assumption, by assumption, by assumption,
           by assumption, by assumption, by assumption,
           by rw [← h'], by rw [← h'], by rw [← h'], by rw [← h']⟩)

theorem parseStep_12_inv (l : String) (st : RowSt) (pr : RowSt × Option Row)
    (h : parseStep 12 l st = some pr) :
    ∃ r, pr = (emptyRowSt, some r) ∧ st.f8 = some r.numColumns ∧
      st.f9 = some r.numMatches ∧ st.f10 = some r.numMismatches ∧
      st.f12 = some r.identity := by
  unfold parseStep at h
  rw [if_neg (by decide : ¬(12 : Nat) = 4), if_neg (by decide : ¬(12 : Nat) = 7),
      if_neg (by decide : ¬(12 : Nat) = 9), if_neg (by decide : ¬(12 : Nat) = 11),
      if_pos (rfl : (12 : Nat) = 12)] at h
  split at h
  · injection h with h'
    exact ⟨_, h'.symm, by assumption, by assumption, by assumption, by assumption⟩
  · exact Option.noConfusion h

theorem parseBlock_identity (l4 l7 l9 l11 : String) (st : RowSt) (r : Row)
    (h : parseBlock l4 l7 l9 l11 st = some r) :
    identityFromSummary l11 = some r.identity := by
  unfold parseBlock at h
  cases h4 : parseStep 4 l4 st with
  | none => rw [h4] at h; exact Option.noConfusion h
  | some s1 =>
    rw [h4] at h
    dsimp only [bind, Option.bind] at h
    cases h7 : parseStep 7 l7 s1.1 with
    | none => rw [h7] at h; exact Option.noConfusion h
    | some s2 =>
      rw [h7] at h
      dsimp only [bind, Option.bind] at h
      cases h9 : parseStep 9 l9 s2.1 with
      | none => rw [h9] at h; exact Option.noConfusion h
      | some s3 =>
        rw [h9] at h
        dsimp only [bind, Option.bind] at h
        cases h11 : parseStep 11 l11 s3.1 with
        | none => rw [h11] at h; exact Option.noConfusion h
        | some s4 =>
          rw [h11] at h
          dsimp only [bind, Option.bind] at h
          cases h12 : parseStep 12 "" s4.1 with
          | none => rw [h12] at h; exact Option.noConfusion h
          | some s5 =>
            rw [h12] at h
            dsimp only [bind, Option.bind] at h
            obtain ⟨t0, t2, t4, c, n, x, _, _, ht4, _, _, hx, _, _, _, hf12⟩ :=
              parseStep_11_inv l11 s3.1 s4 h11
            obtain ⟨r', hpr, _, _, _, hid⟩ := parseStep_12_inv "" s4.1 s5 h12
            rw [hpr] at h
            simp only at h
            injection h with h'
            subst h'
            rw [hf12] at hid
            injection hid with hid'
            unfold identityFromSummary
            rw [ht4]
            dsimp only
            rw [hx]
            simp [hid']

/-! ## Derived-count invariant (claim C4 machinery) -/

theorem parseStep_keeps_counts {off : Nat} (hoff11 : off ≠ 11) (hoff12 : off ≠ 12)
    (l : String) (st : RowSt) (pr : RowSt × Option Row)
    (h : parseStep off l st = some pr) :
    pr.1.f8 = st.f8 ∧ pr.1.f9 = st.f9 ∧ pr.1.f10 = st.f10 := by
  unfold parseStep at h
  split_ifs at h
  all_goals (try dsimp only at h)
  all_goals (repeat' split at h)
  all_goals
    first
      | exact Option.noConfusion h
      | exact absurd (by assumption) hoff11
      | exact absurd (by assumption) hoff12
      | (injection h with h'; rw [← h']; exact ⟨rfl, rfl, rfl⟩)

theorem parseStep_stOk {off : Nat} {l : String} {st : RowSt} {pr : RowSt × Option Row}
    (h : parseStep off l st = some pr) (hst : stOk st) :
    stOk pr.1 ∧ ∀ r, pr.2 = some r → rowOk r := by
  by_cases hoff12 : off = 12
  · subst hoff12
    obtain ⟨r, hpr, h8, h9, h10, _⟩ := parseStep_12_inv l st pr h
    subst hpr
    refine ⟨fun m hm => Option.noConfusion hm, ?_⟩
    intro r' hr'
    injection hr' with hr''
    subst hr''
    obtain ⟨c, n, s8, s9, hs8, hs9, hc, hn, he⟩ := hst _ h10
    have e8 : s8 = r.numColumns := Option.some.inj (hs8.symm.trans h8)
    have e9 : s9 = r.numMatches := Option.some.inj (hs9.symm.trans h9)
    subst e8
    subst e9
    exact ⟨c, n, hc, hn, he⟩
  · by_cases hoff11 : off = 11
    · subst hoff11
      obtain ⟨t0, t2, t4, c, n, x, _, _, _, hc, hn, _, h8, h9, h10, _⟩ :=
        parseStep_11_inv l st pr h
      have hem := parseStep_em_of_ne12 (by decide) l st pr h
      refine ⟨?_, fun r hr => by rw [hem] at hr; exact Option.noConfusion hr⟩
      intro m hm
      rw [h10] at hm
      injection hm with hm'
      exact ⟨c, n, _, _, h8, h9, hc, hn, hm'.symm⟩
    · obtain ⟨e8, e9, e10⟩ := parseStep_keeps_counts hoff11 hoff12 l st pr h
      have hem := parseStep_em_of_ne12 hoff12 l st pr h
      refine ⟨?_, fun r hr => by rw [hem] at hr; exact Option.noConfusion hr⟩
      intro m hm
      rw [e10] at hm
      obtain ⟨c, n, s8, s9, hs8, hs9, hc, hn, he⟩ := hst m hm
      exact ⟨c, n, s8, s9, e8.trans hs8, e9.trans hs9, hc, hn, he⟩

theorem parseRun_rowOk (ls : List String) :
    ∀ (off : Nat) (st : RowSt) (acc : List Row), stOk st → (∀ r ∈ acc, rowOk r) →
      ∀ r ∈ (parseRun ls off st acc).1, rowOk r := by
  induction ls with
  | nil => intro off st acc _ hacc r hr; exact hacc r hr
  | cons l ls ih =>
    intro off st acc hst hacc r hr
    rw [parseRun] at hr
    cases hps : parseStep off l st with
    | none => rw [hps] at hr; exact hacc r hr
    | some pr =>
      obtain ⟨hst', hem⟩ := parseStep_stOk hps hst
      obtain ⟨st', em⟩ := pr
      cases em with
      | none =>
        rw [hps] at hr
        exact ih _ _ _ hst' hacc r hr
      | some r' =>
        rw [hps] at hr
        refine ih _ _ _ hst' ?_ r hr
        intro r'' hr''
        rcases List.mem_append.mp hr'' with hmem | hmem
        · exact hacc r'' hmem
        · rw [List.mem_singleton.mp hmem]
          exact hem r' rfl

theorem emptyRowSt_stOk : stOk emptyRowSt := fun _ hm => Option.noConfusion hm

/-! ## Failure propagation (claim C5 machinery) -/

theorem lineBad_parseStep {off : Nat} {l : String} (hb : lineBad off l = true)
    (st : RowSt) : parseStep off l st = none := by
  unfold lineBad at hb
  unfold parseStep
  split_ifs at hb with h1 h2 h3 h4
  · -- offset 4
    have hn := of_decide_eq_true hb
    rw [if_pos h1, hn]
  · -- offset 7
    rw [if_neg h1, if_pos h2]
    rcases of_decide_eq_true hb with hn3 | hnc
    · rw [List.get?_eq_getElem?] at hn3
      cases hA : (pySplit l).get? 1 <;> cases hB : (pySplit l).getLast? <;>
        simp [hA, hB, hn3]
    · cases hA : (pySplit l).get? 1 <;> cases hB : (pySplit l).getLast? <;>
        cases hC : (pySplit l).get? 3 <;> simp [hA, hB, hC, hnc]
  · -- offset 9
    have hn := of_decide_eq_true hb
    rw [List.get?_eq_getElem?] at hn
    rw [if_neg h1, if_neg h2, if_pos h3]
    cases hA : (pySplit l).get? 1 <;> cases hB : (pySplit l).getLast? <;>
      simp [hA, hB, hn]
  · -- offset 11
    have hn := of_decide_eq_true hb
    rw [List.get?_eq_getElem?] at hn
    rw [if_neg h1, if_neg h2, if_neg h3, if_pos h4]
    cases hA : (pySplit l).get? 0 <;> cases hB : (pySplit l).get? 2 <;>
      cases hD : (pySplit l).get? 4 <;> simp [hA, hB, hD, hn]

theorem parseRun_bad (ls : List String) :
    ∀ (off : Nat) (st : RowSt) (acc : List Row) (i : Nat), off < 13 → i < ls.length →
      lineBad ((off + i) % 13) (ls.getD i "") = true →
      (parseRun ls off st acc).2 = false := by
  induction ls with
  | nil => intro off st acc i _ hi; simp at hi
  | cons l ls ih =>
    intro off st acc i hoff hi hbad
    cases i with
    | zero =>
      have hoff0 : (off + 0) % 13 = off := by omega
      rw [hoff0] at hbad
      have hstep := lineBad_parseStep (by simpa using hbad) st
      rw [parseRun, hstep]
    | succ i' =>
      rw [parseRun]
      cases hs : parseStep off l st with
      | none => rfl
      | some pr =>
        obtain ⟨st', em⟩ := pr
        have hoff' : nextOff off < 13 := by unfold nextOff; split <;> omega
        have hmod : (nextOff off + i') % 13 = (off + (i' + 1)) % 13 := by
          unfold nextOff; split
          · omega
          · omega
        have hbad' : lineBad ((nextOff off + i') % 13) (ls.getD i' "") = true := by
          rw [hmod]
          simpa using hbad
        have hi' : i' < ls.length := by simpa using hi
        cases em with
        | none => exact ih (nextOff off) st' acc i' hoff' hi' hbad'
        | some r => exact ih (nextOff off) st' (acc ++ [r]) i' hoff' hi' hbad'

/-! ## Claim C2–C5 theorems -/

/-- Claim C2 counterexample: in a well-formed block whose summary line's
5th whitespace token is exactly `"95.00%"`, the parser computes Identity
0.05, not 0.95 — the code strips a leading sigil and three (not two)
trailing characters before dividing by 100. -/
theorem identity_strip_cex :
    (pySplit "4 cols, 4 ids 95.00% 0").get? 4 = some "95.00%" ∧
    parseReport [".", ".", ".", ".", "> Query >Q1", ".", ".", "+ 1 + ACGT 4", ".",
      "- 1 - ACGA 4", ".", "4 cols, 4 ids 95.00% 0", "."] =
      some [⟨"Q1", "Q1", "1", "4", "1", "4", "ACGT", "ACGA", "4", "4", 0, "0",
            (5, 100), "3=1X"⟩] ∧
    ratVal (5, 100) ≠ 95 / 100 ∧ ratVal (5, 100) = 5 / 100 := by
  refine ⟨by decide, by decide, ?_, ?_⟩ <;> norm_num [ratVal]

/-- Claim C2 (amended): for every well-formed 13-line report block, the
Identity field equals the numeric value of the 5th whitespace token of
the summary line with its leading sigil and trailing three characters
stripped, divided by 100 (`identityFromSummary`); a block whose
percentage token is `"(95.00%),"` yields Identity 0.95. -/
theorem report_identity_field (l0 l1 l2 l3 l4 l5 l6 l7 l8 l9 l10 l11 l12 : String)
    (rows : List Row)
    (h : parseReport [l0, l1, l2, l3, l4, l5, l6, l7, l8, l9, l10, l11, l12] = some rows) :
    ∃ r, rows = [r] ∧ identityFromSummary l11 = some r.identity := by
  unfold parseReport at h
  rw [parseRun_block] at h
  cases hb : parseBlock l4 l7 l9 l11 emptyRowSt with
  | none => rw [hb] at h; exact Option.noConfusion h
  | some r =>
    rw [hb] at h
    refine ⟨r, ?_, parseBlock_identity l4 l7 l9 l11 emptyRowSt r hb⟩
    injection h with h'
    rw [← h']
    exact List.nil_append [r]

/-- Witness for the amended C2: the percentage token `"(95.00%),"` gives
Identity value 9500/10000 = 0.95. -/
theorem report_identity_field_witness :
    ∃ r, [(⟨"Q1", "Q1", "1", "4", "1", "4", "ACGT", "ACGA", "4", "4", 0, "0",
        (9500, 10000), "3=1X"⟩ : Row)] = [r] ∧
      identityFromSummary "4 cols, 4 ids (95.00%), 0" = some r.identity :=
  report_identity_field "." "." "." "." "> Query >Q1" "." "." "+ 1 + ACGT 4" "."
    "- 1 - ACGA 4" "." "4 cols, 4 ids (95.00%), 0" "." _ (by decide)

/-- Claim C3: for a well-formed report of exactly 13·k lines, the
persisted table holds the fixed 14-column header row plus exactly k data
rows, one per 13-line block. -/
theorem writeCSV_block_count (fs : FS) (reportPath csvPath : String)
    (ls : List String) (k : Nat)
    (hread : fsRead fs reportPath = some ls)
    (hlen : ls.length = 13 * k)
    (hok : (writeCSVModel fs reportPath csvPath).2 = none) :
    ∃ rows : List Row,
      fsRead (writeCSVModel fs reportPath csvPath).1 csvPath =
        some (headerLine :: rows.map renderRow) ∧
      rows.length = k ∧ header.length = 14 := by
  unfold writeCSVModel at hok ⊢
  rw [hread] at hok ⊢
  dsimp only at hok ⊢
  by_cases hb : (parseRun ls 0 emptyRowSt []).2 = true
  · refine ⟨(parseRun ls 0 emptyRowSt []).1, ?_, ?_, rfl⟩
    · exact fsRead_write_self _ _ _
    · have := parseRun_length k ls emptyRowSt [] hlen hb
      simpa using this
  · rw [if_neg hb] at hok
    exact Option.noConfusion hok

/-- Witness for C3 at a concrete single-block report (k = 1). -/
theorem writeCSV_block_count_witness :
    ∃ rows : List Row,
      fsRead (writeCSVModel [("r.txt", [".", ".", ".", ".", "> Query >Q1", ".", ".",
          "+ 1 + ACGT 4", ".", "- 1 - ACGA 4", ".", "4 cols, 4 ids 95.00% 0", "."])]
          "r.txt" "out.csv").1 "out.csv" =
        some (headerLine :: rows.map renderRow) ∧
      rows.length = 1 ∧ header.length = 14 :=
  writeCSV_block_count
    [("r.txt", [".", ".", ".", ".", "> Query >Q1", ".", ".",
      "+ 1 + ACGT 4", ".", "- 1 - ACGA 4", ".", "4 cols, 4 ids 95.00% 0", "."])]
    "r.txt" "out.csv"
    [".", ".", ".", ".", "> Query >Q1", ".", ".",
     "+ 1 + ACGT 4", ".", "- 1 - ACGA 4", ".", "4 cols, 4 ids 95.00% 0", "."]
    1 (by decide) (by decide) (by decide)

/-- Claim C4: every row the parser emits has its NumMismatches field
equal to the integer value of its NumColumns token minus that of its
NumMatches token (the 1st and 3rd summary-line tokens); the count is
derived, never read from the report. -/
theorem rows_mismatch_derived (ls : List String) (rows : List Row)
    (h : parseReport ls = some rows) : ∀ r ∈ rows, rowOk r := by
  unfold parseReport at h
  cases hpr : parseRun ls 0 emptyRowSt [] with
  | mk rows' ok =>
    rw [hpr] at h
    cases ok with
    | false => exact Option.noConfusion h
    | true =>
      injection h with h'
      subst h'
      intro r hr
      refine parseRun_rowOk ls 0 emptyRowSt [] emptyRowSt_stOk ?_ r ?_
      · intro r' hr'
        exact absurd hr' (List.not_mem_nil r')
      · rw [hpr]
        exact hr

/-- Witness for C4 at the concrete single-block report's emitted row. -/
theorem rows_mismatch_derived_witness :
    rowOk ⟨"Q1", "Q1", "1", "4", "1", "4", "ACGT", "ACGA", "4", "4", 0, "0",
      (5, 100), "3=1X"⟩ :=
  rows_mismatch_derived
    [".", ".", ".", ".", "> Query >Q1", ".", ".", "+ 1 + ACGT 4", ".",
     "- 1 - ACGA 4", ".", "4 cols, 4 ids 95.00% 0", "."]
    [⟨"Q1", "Q1", "1", "4", "1", "4", "ACGT", "ACGA", "4", "4", 0, "0",
      (5, 100), "3=1X"⟩] (by decide) _ (by simp)

/-- Claim C5 counterexample: a one-line report — line count 1, not a
multiple of 13 — parses without any error (the trailing partial block is
silently dropped), contradicting the claim that such a report signals a
malformed-report error. -/
theorem malformed_length_no_error_cex :
    parseReport ["x"] = some [] ∧ (["x"] : List String).length % 13 ≠ 0 :=
  ⟨by decide, by decide⟩

/-- Claim C5 (amended): the parser signals a malformed-report error
whenever some line at an examined offset (index ≡ 4, 7, 9 or 11 mod 13)
lacks a token the layout requires; a line count that is not a multiple
of 13 does not by itself raise — a trailing partial block whose lines
pass the examined offsets is silently dropped (15 lines below yield one
row and no error). -/
theorem parse_missing_token_error :
    (∀ (ls : List String) (i : Nat), i < ls.length →
      lineBad (i % 13) (ls.getD i "") = true → parseReport ls = none) ∧
    parseReport [".", ".", ".", ".", "> Query >Q1", ".", ".", "+ 1 + ACGT 4", ".",
      "- 1 - ACGA 4", ".", "4 cols, 4 ids 95.00% 0", ".", "trailing", "partial-block"] =
      some [⟨"Q1", "Q1", "1", "4", "1", "4", "ACGT", "ACGA", "4", "4", 0, "0",
            (5, 100), "3=1X"⟩] := by
  constructor
  · intro ls i hi hbad
    have hfail := parseRun_bad ls 0 emptyRowSt [] i (by omega) hi (by simpa using hbad)
    unfold parseReport
    cases hpr : parseRun ls 0 emptyRowSt [] with
    | mk rows ok =>
      rw [hpr] at hfail
      simp only at hfail
      subst hfail
      rfl
  · decide

/-- Witness for the amended C5: a report whose offset-4 line is empty
(no 3rd token) raises. -/
theorem parse_missing_token_error_witness :
    parseReport ["", "", "", "", ""] = none :=
  parse_missing_token_error.1 ["", "", "", "", ""] 4 (by decide) (by decide)

/-! ## Filesystem preservation lemmas and name disjointness -/

theorem fsExists_write (fs : FS) (n : String) (c : List String) (p : String)
    (h : fsExists fs p = true) : fsExists (fsWrite fs n c) p = true := by
  by_cases hpn : p = n
  · subst hpn
    unfold fsExists
    rw [fsRead_write_self]
    rfl
  · unfold fsExists at h ⊢
    rw [fsRead_write_ne fs n p c hpn]
    exact h

theorem fsExists_remove_ne (fs : FS) (n p : String) (hpn : p ≠ n)
    (h : fsExists fs p = true) : fsExists (fsRemove fs n) p = true := by
  unfold fsExists at h ⊢
  rw [fsRead_remove_ne fs n p hpn]
  exact h

theorem fsAbsent_remove (fs : FS) (p q : String) (h : fsRead fs q = none) :
    fsRead (fsRemove fs p) q = none := by
  by_cases hpq : q = p
  · rw [hpq]; exact fsRead_remove_self fs p
  · rw [fsRead_remove_ne fs p q hpq]; exact h

theorem fsRemove_absent (fs : FS) (p : String) :
    fsRead (fsRemove fs p) p = none := fsRead_remove_self fs p

theorem string_append_data (s t : String) : (s ++ t).data = s.data ++ t.data := by
  obtain ⟨d1⟩ := s
  obtain ⟨d2⟩ := t
  rfl

theorem string_append_assoc (s t u : String) : s ++ t ++ u = s ++ (t ++ u) := by
  obtain ⟨d1⟩ := s
  obtain ⟨d2⟩ := t
  obtain ⟨d3⟩ := u
  show String.mk (d1 ++ d2 ++ d3) = String.mk (d1 ++ (d2 ++ d3))
  rw [List.append_assoc]

/-- Two appended strings differ when their first pieces start with
different characters. -/
theorem append_ne_of_head (a x b y : String) (ha : a.data ≠ []) (hb : b.data ≠ [])
    (h : a.data.head? ≠ b.data.head?) : a ++ x ≠ b ++ y := by
  intro he
  have hd := congrArg String.data he
  rw [string_append_data, string_append_data] at hd
  cases hA : a.data with
  | nil => exact ha hA
  | cons c cs =>
    cases hB : b.data with
    | nil => exact hb hB
    | cons c2 cs2 =>
      rw [hA, hB] at hd
      simp only [List.cons_append] at hd
      injection hd with h1 _
      apply h
      rw [hA, hB, h1]
      rfl

/-- Two appended strings differ when their final pieces end with
different characters. -/
theorem append_ne_of_last (x a y b : String) (ha : a.data ≠ []) (hb : b.data ≠ [])
    (h : a.data.getLast? ≠ b.data.getLast?) : x ++ a ≠ y ++ b := by
  intro he
  have hd := congrArg String.data he
  rw [string_append_data, string_append_data] at hd
  apply h
  obtain ⟨va, hva⟩ := Option.isSome_iff_exists.mp (List.getLast?_isSome.mpr ha)
  obtain ⟨vb, hvb⟩ := Option.isSome_iff_exists.mp (List.getLast?_isSome.mpr hb)
  have h1 : (x.data ++ a.data).getLast? = a.data.getLast? := by
    rw [List.getLast?_append, hva]; rfl
  have h2 : (y.data ++ b.data).getLast? = b.data.getLast? := by
    rw [List.getLast?_append, hvb]; rfl
  rw [← h1, ← h2, hd]

theorem query_ne_database (ts ts2 : String) :
    ("query_" ++ ts ++ ".fasta" : String) ≠ "database_" ++ ts2 ++ ".fasta" := by
  rw [string_append_assoc, string_append_assoc]
  exact append_ne_of_head _ _ _ _ (by decide) (by decide) (by decide)

theorem query_ne_output_txt (ts ts2 : String) :
    ("query_" ++ ts ++ ".fasta" : String) ≠ "output_" ++ ts2 ++ ".txt" := by
  rw [string_append_assoc, string_append_assoc]
  exact append_ne_of_head _ _ _ _ (by decide) (by decide) (by decide)

theorem query_ne_output_csv (ts ts2 : String) :
    ("query_" ++ ts ++ ".fasta" : String) ≠ "output_" ++ ts2 ++ ".csv" := by
  rw [string_append_assoc, string_append_assoc]
  exact append_ne_of_head _ _ _ _ (by decide) (by decide) (by decide)

theorem database_ne_output_txt (ts ts2 : String) :
    ("database_" ++ ts ++ ".fasta" : String) ≠ "output_" ++ ts2 ++ ".txt" := by
  rw [string_append_assoc, string_append_assoc]
  exact append_ne_of_head _ _ _ _ (by decide) (by decide) (by decide)

theorem database_ne_output_csv (ts ts2 : String) :
    ("database_" ++ ts ++ ".fasta" : String) ≠ "output_" ++ ts2 ++ ".csv" := by
  rw [string_append_assoc, string_append_assoc]
  exact append_ne_of_head _ _ _ _ (by decide) (by decide) (by decide)

theorem output_txt_ne_csv (ts ts2 : String) :
    ("output_" ++ ts ++ ".txt" : String) ≠ "output_" ++ ts2 ++ ".csv" :=
  append_ne_of_last _ _ _ _ (by decide) (by decide) (by decide)

theorem writeCSVModel_fs (fs : FS) (fp cp : String) :
    ∃ content, (writeCSVModel fs fp cp).1 = fsWrite fs cp content := by
  unfold writeCSVModel
  cases fsRead fs fp with
  | none => exact ⟨[headerLine], rfl⟩
  | some ls => exact ⟨_, rfl⟩

theorem stageInput_path_inv {fs : FS} {p n : String} {fs' : FS} {path : String}
    {owned : Bool} (h : stageInput fs (.path p) n = some (fs', path, owned)) :
    fs' = fs ∧ path = p ∧ owned = false ∧ fsExists fs p = true := by
  simp only [stageInput] at h
  split at h
  · injection h with h'
    injection h' with e1 h''
    injection h'' with e2 e3
    exact ⟨e1.symm, e2.symm, e3.symm, by assumption⟩
  · exact Option.noConfusion h

theorem stageInput_dict_inv {fs : FS} {d : List (String × String)} {n : String}
    {fs' : FS} {path : String} {owned : Bool}
    (h : stageInput fs (.dict d) n = some (fs', path, owned)) :
    fs' = fsWrite fs n (fastaLines d) ∧ path = n ∧ owned = true := by
  simp only [stageInput] at h
  injection h with h'
  injection h' with e1 h''
  injection h'' with e2 e3
  exact ⟨e1.symm, e2.symm, e3.symm⟩

theorem stageInput_preserves {fs : FS} {inp : BlastInput} {n : String} {fs' : FS}
    {path : String} {owned : Bool}
    (h : stageInput fs inp n = some (fs', path, owned)) (q : String)
    (hq : fsExists fs q = true) : fsExists fs' q = true := by
  cases inp with
  | path p =>
    obtain ⟨rfl, -, -, -⟩ := stageInput_path_inv h
    exact hq
  | dict d =>
    obtain ⟨rfl, -, -⟩ := stageInput_dict_inv h
    exact fsExists_write fs n _ q hq

theorem stageInput_owned {fs : FS} {inp : BlastInput} {n : String} {fs' : FS}
    {path : String} (h : stageInput fs inp n = some (fs', path, true)) :
    path = n := by
  cases inp with
  | path p =>
    obtain ⟨-, -, hfalse, -⟩ := stageInput_path_inv h
    exact absurd hfalse (by simp)
  | dict d =>
    obtain ⟨-, hpn, -⟩ := stageInput_dict_inv h
    exact hpn

theorem blastReturn_ok_fs (fs7 : FS) (calls : List EngineCall) (csvPath : String)
    (otf : Bool) (v : BlastRet)
    (hok : (blastReturn fs7 calls csvPath otf).result = .ok v) :
    ∃ frm : Bool, (blastReturn fs7 calls csvPath otf).fs =
      if frm then fsRemove fs7 csvPath else fs7 := by
  unfold blastReturn at hok ⊢
  cases otf with
  | true => exact ⟨false, rfl⟩
  | false =>
    rw [if_neg (by simp : ¬(false = true))] at hok ⊢
    split at hok
    · simp at hok
    · rename_i csvLs heq
      split at hok
      · simp at hok
      · rename_i t heq2
        refine ⟨true, ?_⟩
        simp [heq, heq2]

theorem blastTail_ok_fs (fs3 : FS) (calls : List EngineCall) (queryPath : String)
    (ownedQ : Bool) (databasePath : String) (ownedDb : Bool) (otf : Bool)
    (outputPath csvPath : String) (v : BlastRet)
    (hok : (blastTail fs3 calls queryPath ownedQ databasePath ownedDb otf
      outputPath csvPath).result = .ok v) :
    ∃ (content : List String) (frm : Bool),
      (blastTail fs3 calls queryPath ownedQ databasePath ownedDb otf
        outputPath csvPath).fs =
        (let fs4 := fsWrite fs3 csvPath content
         let fs5 := if ownedQ then fsRemove fs4 queryPath else fs4
         let fs6 := if ownedDb then fsRemove fs5 databasePath else fs5
         let fs7 := fsRemove fs6 outputPath
         if frm then fsRemove fs7 csvPath else fs7) := by
  unfold blastTail at hok ⊢
  obtain ⟨content, hc⟩ := writeCSVModel_fs fs3 outputPath csvPath
  cases hW : writeCSVModel fs3 outputPath csvPath with
  | mk fs4 err =>
    rw [hW] at hok hc
    dsimp only at hc
    subst hc
    cases err with
    | some e =>
      cases e <;> (dsimp only at hok; exact Except.noConfusion hok)
    | none =>
      dsimp only at hok ⊢
      obtain ⟨frm, hfs⟩ := blastReturn_ok_fs _ calls csvPath otf v hok
      exact ⟨content, frm, hfs⟩

/-- Success-path shape of `blast`: on `.ok` results the final filesystem
is the staged filesystem plus the engine report write (when dispatched)
and the csv write, minus the owned staging files, the report, and — when
the table is returned in memory — the csv. -/
theorem blastModel_ok_fs (fs0 : FS) (query database : BlastInput)
    (alphabet strand : String) (otf : Bool) (ts ts2 : String) (rep : List String)
    (v : BlastRet)
    (hok : (blastModel fs0 query database alphabet strand otf ts ts2 rep).result = .ok v) :
    ∃ (fs1 fs2 : FS) (queryPath : String) (ownedQ : Bool) (databasePath : String)
      (ownedDb : Bool) (content : List String) (frm : Bool) (fs3 : FS),
      stageInput fs0 query ("query_" ++ ts ++ ".fasta") = some (fs1, queryPath, ownedQ) ∧
      stageInput fs1 database ("database_" ++ ts ++ ".fasta") =
        some (fs2, databasePath, ownedDb) ∧
      (fs3 = fs2 ∨ fs3 = fsWrite fs2 ("output_" ++ ts ++ ".txt") rep) ∧
      (blastModel fs0 query database alphabet strand otf ts ts2 rep).fs =
        (let fs4 := fsWrite fs3 ("output_" ++ ts2 ++ ".csv") content
         let fs5 := if ownedQ then fsRemove fs4 queryPath else fs4
         let fs6 := if ownedDb then fsRemove fs5 databasePath else fs5
         let fs7 := fsRemove fs6 ("output_" ++ ts ++ ".txt")
         if frm then fsRemove fs7 ("output_" ++ ts2 ++ ".csv") else fs7) := by
  unfold blastModel at hok ⊢
  cases hQ : stageInput fs0 query ("query_" ++ ts ++ ".fasta") with
  | none =>
    rw [hQ] at hok
    exact Except.noConfusion hok
  | some sq =>
    obtain ⟨fs1, queryPath, ownedQ⟩ := sq
    rw [hQ] at hok
    dsimp only at hok ⊢
    cases hDb : stageInput fs1 database ("database_" ++ ts ++ ".fasta") with
    | none =>
      rw [hDb] at hok
      exact Except.noConfusion hok
    | some sdb =>
      obtain ⟨fs2, databasePath, ownedDb⟩ := sdb
      rw [hDb] at hok
      dsimp only at hok ⊢
      by_cases ha1 : alphabet = "nucleotide"
      · rw [if_pos ha1] at hok ⊢
        obtain ⟨content, frm, hfs⟩ := blastTail_ok_fs _ _ _ _ _ _ _ _ _ _ hok
        exact ⟨fs1, fs2, queryPath, ownedQ, databasePath, ownedDb, content, frm,
          _, rfl, hDb, Or.inr rfl, hfs⟩
      · rw [if_neg ha1] at hok ⊢
        by_cases ha2 : alphabet = "protein"
        · rw [if_pos ha2] at hok ⊢
          obtain ⟨content, frm, hfs⟩ := blastTail_ok_fs _ _ _ _ _ _ _ _ _ _ hok
          exact ⟨fs1, fs2, queryPath, ownedQ, databasePath, ownedDb, content, frm,
            _, rfl, hDb, Or.inr rfl, hfs⟩
        · rw [if_neg ha2] at hok ⊢
          obtain ⟨content, frm, hfs⟩ := blastTail_ok_fs _ _ _ _ _ _ _ _ _ _ hok
          exact ⟨fs1, fs2, queryPath, ownedQ, databasePath, ownedDb, content, frm,
            _, rfl, hDb, Or.inl rfl, hfs⟩

theorem fsExists_condRemove (fs : FS) (n p : String) (b : Bool)
    (hne : b = true → p ≠ n) (h : fsExists fs p = true) :
    fsExists (if b then fsRemove fs n else fs) p = true := by
  cases b
  · simpa using h
  · simpa using fsExists_remove_ne fs n p (hne rfl) h

theorem fsAbsent_condRemove (fs : FS) (n p : String) (b : Bool)
    (h : fsRead fs p = none) :
    fsRead (if b then fsRemove fs n else fs) p = none := by
  cases b
  · simpa using h
  · simpa using fsAbsent_remove fs n p h

/-! ## Claim C7 theorems -/

/-- Claim C7 counterexample: a success-path `search` whose caller-supplied
query path happens to equal the orchestrator's generated report name
`output_<timestamp>.txt` succeeds — and deletes the caller's file. -/
theorem blast_deletes_colliding_path_cex :
    (blastModel [("output_T.txt", ["junk"]), ("db.fasta", ["y"])]
      (.path "output_T.txt") (.path "db.fasta") "nucleotide" "both" true "T" "U" []).result
      = .ok (.csvFile "output_U.csv") ∧
    fsRead (blastModel [("output_T.txt", ["junk"]), ("db.fasta", ["y"])]
      (.path "output_T.txt") (.path "db.fasta") "nucleotide" "both" true "T" "U" []).fs
      "output_T.txt" = none :=
  ⟨by decide, by decide⟩

/-- Claim C7 (amended): on the success path of `search`, a caller-supplied
query or database path still exists afterwards provided it does not
collide with an orchestrator-generated name for that call; a staging file
written for an in-memory mapping no longer exists; and the raw engine
report file `output_<ts>.txt` is deleted in all cases. -/
theorem blast_success_cleanup (fs0 : FS) (query database : BlastInput)
    (alphabet strand : String) (otf : Bool) (ts ts2 : String) (rep : List String)
    (v : BlastRet)
    (hok : (blastModel fs0 query database alphabet strand otf ts ts2 rep).result = .ok v) :
    (∀ p, query = .path p → p ≠ "database_" ++ ts ++ ".fasta" →
        p ≠ "output_" ++ ts ++ ".txt" → p ≠ "output_" ++ ts2 ++ ".csv" →
        fsExists (blastModel fs0 query database alphabet strand otf ts ts2 rep).fs p = true) ∧
    (∀ p, database = .path p → p ≠ "query_" ++ ts ++ ".fasta" →
        p ≠ "output_" ++ ts ++ ".txt" → p ≠ "output_" ++ ts2 ++ ".csv" →
        fsExists (blastModel fs0 query database alphabet strand otf ts ts2 rep).fs p = true) ∧
    (∀ d, query = .dict d →
        fsRead (blastModel fs0 query database alphabet strand otf ts ts2 rep).fs
          ("query_" ++ ts ++ ".fasta") = none) ∧
    (∀ d, database = .dict d →
        fsRead (blastModel fs0 query database alphabet strand otf ts ts2 rep).fs
          ("database_" ++ ts ++ ".fasta") = none) ∧
    fsRead (blastModel fs0 query database alphabet strand otf ts ts2 rep).fs
      ("output_" ++ ts ++ ".txt") = none := by
  obtain ⟨fs1, fs2, queryPath, ownedQ, databasePath, ownedDb, content, frm, fs3,
    hQ, hDb, hfs3, hfs⟩ :=
    blastModel_ok_fs fs0 query database alphabet strand otf ts ts2 rep v hok
  rw [hfs]
  dsimp only
  refine ⟨?_, ?_, ?_, ?_, ?_⟩
  · -- caller-supplied query path survives
    intro p hqp hne1 hne2 hne3
    subst hqp
    obtain ⟨rfl, hqp2, hoq, hex⟩ := stageInput_path_inv hQ
    subst hoq
    rw [← hqp2] at hne1 hne2 hne3 ⊢
    have h2 : fsExists fs2 queryPath = true :=
      stageInput_preserves hDb queryPath (hqp2 ▸ hex)
    have h3 : fsExists fs3 queryPath = true := by
      rcases hfs3 with rfl | rfl
      · exact h2
      · exact fsExists_write _ _ _ _ h2
    exact fsExists_condRemove _ _ _ frm (fun _ => hne3)
      (fsExists_remove_ne _ _ _ hne2
        (fsExists_condRemove _ _ _ ownedDb
          (fun hOdb => by
            have hDb' := hDb
            rw [hOdb] at hDb'
            rw [stageInput_owned hDb']
            exact hne1)
          (fsExists_condRemove _ _ _ false (fun hfalse => absurd hfalse (by simp))
            (fsExists_write _ _ _ _ h3))))
  · -- caller-supplied database path survives
    intro p hdp hne1 hne2 hne3
    subst hdp
    obtain ⟨rfl, hdp2, hodb, hex⟩ := stageInput_path_inv hDb
    subst hodb
    rw [← hdp2] at hne1 hne2 hne3 ⊢
    have h3 : fsExists fs3 databasePath = true := by
      rcases hfs3 with rfl | rfl
      · exact hdp2 ▸ hex
      · exact fsExists_write _ _ _ _ (hdp2 ▸ hex)
    exact fsExists_condRemove _ _ _ frm (fun _ => hne3)
      (fsExists_remove_ne _ _ _ hne2
        (fsExists_condRemove _ _ _ false (fun hfalse => absurd hfalse (by simp))
          (fsExists_condRemove _ _ _ ownedQ
            (fun hOq => by
              have hQ' := hQ
              rw [hOq] at hQ'
              rw [stageInput_owned hQ']
              exact hne1)
            (fsExists_write _ _ _ _ h3))))
  · -- staging file for an in-memory query is gone
    intro d hqd
    subst hqd
    obtain ⟨rfl, rfl, rfl⟩ := stageInput_dict_inv hQ
    refine fsAbsent_condRemove _ _ _ frm (fsAbsent_remove _ _ _
      (fsAbsent_condRemove _ _ _ ownedDb ?_))
    simpa using fsRead_remove_self _ ("query_" ++ ts ++ ".fasta")
  · -- staging file for an in-memory database is gone
    intro d hdd
    subst hdd
    obtain ⟨rfl, rfl, rfl⟩ := stageInput_dict_inv hDb
    refine fsAbsent_condRemove _ _ _ frm (fsAbsent_remove _ _ _ ?_)
    simpa using fsRead_remove_self _ ("database_" ++ ts ++ ".fasta")
  · -- the raw engine report is gone
    exact fsAbsent_condRemove _ _ _ frm (fsRead_remove_self _ _)

/-- Witness for the amended C7 at a concrete successful run: a path query
and an in-memory database. -/
theorem blast_success_cleanup_witness :
    fsExists (blastModel [("q.fa", ["x"]), ("db.fa", ["y"])] (.path "q.fa")
      (.dict [("b", "G")]) "nucleotide" "both" true "T" "U" []).fs "q.fa" = true ∧
    fsRead (blastModel [("q.fa", ["x"]), ("db.fa", ["y"])] (.path "q.fa")
      (.dict [("b", "G")]) "nucleotide" "both" true "T" "U" []).fs
      ("database_" ++ "T" ++ ".fasta") = none ∧
    fsRead (blastModel [("q.fa", ["x"]), ("db.fa", ["y"])] (.path "q.fa")
      (.dict [("b", "G")]) "nucleotide" "both" true "T" "U" []).fs
      ("output_" ++ "T" ++ ".txt") = none :=
  ⟨(blast_success_cleanup [("q.fa", ["x"]), ("db.fa", ["y"])] (.path "q.fa")
      (.dict [("b", "G")]) "nucleotide" "both" true "T" "U" []
      (.csvFile ("output_" ++ "U" ++ ".csv")) (by decide)).1 "q.fa" rfl
      (by decide) (by decide) (by decide),
   (blast_success_cleanup [("q.fa", ["x"]), ("db.fa", ["y"])] (.path "q.fa")
      (.dict [("b", "G")]) "nucleotide" "both" true "T" "U" []
      (.csvFile ("output_" ++ "U" ++ ".csv")) (by decide)).2.2.2.1 [("b", "G")] rfl,
   (blast_success_cleanup [("q.fa", ["x"]), ("db.fa", ["y"])] (.path "q.fa")
      (.dict [("b", "G")]) "nucleotide" "both" true "T" "U" []
      (.csvFile ("output_" ++ "U" ++ ".csv")) (by decide)).2.2.2.2⟩

/-! ## Claim C9 theorem -/

theorem blastTail_no_report (fs3 : FS) (calls : List EngineCall) (qp : String)
    (oq : Bool) (dbp : String) (odb : Bool) (otf : Bool) (op cp : String)
    (hnone : fsRead fs3 op = none) :
    blastTail fs3 calls qp oq dbp odb otf op cp =
      ⟨fsWrite fs3 cp [headerLine], calls, .error .reportNotFound⟩ := by
  unfold blastTail writeCSVModel
  rw [hnone]

/-- Claim C9: for an alphabet other than `"nucleotide"` or `"protein"`,
`search` dispatches neither engine operation and raises nothing at
dispatch; it fails only when `writeCSV` tries to open the never-created
report file, and the staging files already written for dict-supplied
inputs are still on disk at that failure (the staging hypotheses say the
run reaches dispatch: path inputs exist, and no stale file occupies the
report name). -/
theorem blast_unknown_alphabet (fs0 : FS) (query database : BlastInput)
    (alphabet strand : String) (otf : Bool) (ts ts2 : String) (rep : List String)
    (ha1 : alphabet ≠ "nucleotide") (ha2 : alphabet ≠ "protein")
    (hq : ∀ p, query = .path p → fsExists fs0 p = true)
    (hdb : ∀ p, database = .path p → fsExists fs0 p = true)
    (hout : fsRead fs0 ("output_" ++ ts ++ ".txt") = none) :
    (blastModel fs0 query database alphabet strand otf ts ts2 rep).calls = [] ∧
    (blastModel fs0 query database alphabet strand otf ts ts2 rep).result =
      .error .reportNotFound ∧
    (∀ d, query = .dict d →
      fsExists (blastModel fs0 query database alphabet strand otf ts ts2 rep).fs
        ("query_" ++ ts ++ ".fasta") = true) ∧
    (∀ d, database = .dict d →
      fsExists (blastModel fs0 query database alphabet strand otf ts ts2 rep).fs
        ("database_" ++ ts ++ ".fasta") = true) := by
  unfold blastModel
  cases query with
  | path p =>
    have hexq := hq p rfl
    simp only [stageInput, hexq, if_pos]
    cases database with
    | path p2 =>
      have hexd := hdb p2 rfl
      simp only [stageInput, hexd, if_pos]
      rw [if_neg ha1, if_neg ha2]
      dsimp only
      rw [blastTail_no_report _ _ _ _ _ _ _ _ _ hout]
      refine ⟨rfl, rfl, ?_, ?_⟩ <;>
        (intro d hcon; exact absurd hcon (by simp))
    | dict d2 =>
      simp only [stageInput]
      rw [if_neg ha1, if_neg ha2]
      dsimp only
      have hnone2 : fsRead (fsWrite fs0 ("database_" ++ ts ++ ".fasta") (fastaLines d2))
          ("output_" ++ ts ++ ".txt") = none := by
        rw [fsRead_write_ne _ _ _ _ (Ne.symm (database_ne_output_txt ts ts))]
        exact hout
      rw [blastTail_no_report _ _ _ _ _ _ _ _ _ hnone2]
      refine ⟨rfl, rfl, ?_, ?_⟩
      · intro d hcon
        exact absurd hcon (by simp)
      · intro d hd
        apply fsExists_write
        unfold fsExists
        rw [fsRead_write_self]
        rfl
  | dict d =>
    simp only [stageInput]
    cases database with
    | path p2 =>
      have hexd := hdb p2 rfl
      have hexd1 : fsExists (fsWrite fs0 ("query_" ++ ts ++ ".fasta") (fastaLines d))
          p2 = true := fsExists_write _ _ _ _ hexd
      simp only [stageInput, hexd1, if_pos]
      rw [if_neg ha1, if_neg ha2]
      dsimp only
      have hnone2 : fsRead (fsWrite fs0 ("query_" ++ ts ++ ".fasta") (fastaLines d))
          ("output_" ++ ts ++ ".txt") = none := by
        rw [fsRead_write_ne _ _ _ _ (Ne.symm (query_ne_output_txt ts ts))]
        exact hout
      rw [blastTail_no_report _ _ _ _ _ _ _ _ _ hnone2]
      refine ⟨rfl, rfl, ?_, ?_⟩
      · intro d' hd
        apply fsExists_write
        unfold fsExists
        rw [fsRead_write_self]
        rfl
      · intro d' hcon
        exact absurd hcon (by simp)
    | dict d2 =>
      simp only [stageInput]
      rw [if_neg ha1, if_neg ha2]
      dsimp only
      have hnone2 : fsRead (fsWrite (fsWrite fs0 ("query_" ++ ts ++ ".fasta")
          (fastaLines d)) ("database_" ++ ts ++ ".fasta") (fastaLines d2))
          ("output_" ++ ts ++ ".txt") = none := by
        rw [fsRead_write_ne _ _ _ _ (Ne.symm (database_ne_output_txt ts ts)),
            fsRead_write_ne _ _ _ _ (Ne.symm (query_ne_output_txt ts ts))]
        exact hout
      rw [blastTail_no_report _ _ _ _ _ _ _ _ _ hnone2]
      refine ⟨rfl, rfl, ?_, ?_⟩
      · intro d' hd
        apply fsExists_write
        apply fsExists_write
        unfold fsExists
        rw [fsRead_write_self]
        rfl
      · intro d' hd
        apply fsExists_write
        unfold fsExists
        rw [fsRead_write_self]
        rfl

/-- Witness for C9 at a concrete call with alphabet `"rna"` and two
dict-supplied inputs. -/
theorem blast_unknown_alphabet_witness :
    (blastModel [] (.dict [("a", "C")]) (.dict [("b", "G")]) "rna" "both" false
      "T" "U" ["x"]).calls = [] ∧
    (blastModel [] (.dict [("a", "C")]) (.dict [("b", "G")]) "rna" "both" false
      "T" "U" ["x"]).result = .error .reportNotFound ∧
    (∀ d, (BlastInput.dict [("a", "C")]) = .dict d →
      fsExists (blastModel [] (.dict [("a", "C")]) (.dict [("b", "G")]) "rna" "both" false
        "T" "U" ["x"]).fs ("query_" ++ "T" ++ ".fasta") = true) ∧
    (∀ d, (BlastInput.dict [("b", "G")]) = .dict d →
      fsExists (blastModel [] (.dict [("a", "C")]) (.dict [("b", "G")]) "rna" "both" false
        "T" "U" ["x"]).fs ("database_" ++ "T" ++ ".fasta") = true) :=
  blast_unknown_alphabet [] (.dict [("a", "C")]) (.dict [("b", "G")]) "rna" "both" false
    "T" "U" ["x"] (by decide) (by decide)
    (fun p hp => absurd hp (by simp)) (fun p hp => absurd hp (by simp)) (by decide)

/-! ## Claim C8 and C10 theorems -/

/-- Claim C8: loading a persisted table file that holds only the
14-column header row and zero hit rows yields an empty mapping with no
column keys at all — `zip` of no data rows is empty, so `dict(zip(header,
[]))` is `{}` — rather than a mapping from each of the 14 fixed column
names to an empty sequence. -/
theorem readCSV_header_only :
    readCSVModel [headerLine] = some [] ∧
    ([] : Table) ≠ header.map (fun h => (h, Col.strs [])) := by
  constructor
  · decide
  · decide

/-- Claim C10: for every non-empty sequence mapping and every
`wrapAfter > 0`, `writeFasta` writes the first `"> name"` header line and
then raises `TypeError` (two arguments passed to `len`) before writing
any wrapped sequence line; for a non-empty mapping, only `wrapAfter = 0`
completes without an exception. -/
theorem writeFasta_wrap_typeerror (sequences : List (String × String)) (w : Int)
    (hne : sequences ≠ []) (hw : 0 < w) :
    (writeFasta sequences w).2 = some .typeError ∧
    (writeFasta sequences w).1 = ["> " ++ (sequences.headD ("", "")).1] ∧
    (∀ w' : Int, (writeFasta sequences w').2 = none → w' = 0) := by
  refine ⟨?_, ?_, ?_⟩
  · unfold writeFasta
    rw [if_neg (by omega), if_neg (by omega)]
    cases sequences with
    | nil => exact absurd rfl hne
    | cons e rest => rfl
  · unfold writeFasta
    rw [if_neg (by omega), if_neg (by omega)]
    cases sequences with
    | nil => exact absurd rfl hne
    | cons e rest => rfl
  · intro w' hnone
    unfold writeFasta at hnone
    by_cases h1 : w' < 0
    · rw [if_pos h1] at hnone
      simp at hnone
    · rw [if_neg h1] at hnone
      by_cases h2 : w' = 0
      · exact h2
      · rw [if_neg h2] at hnone
        cases sequences with
        | nil => exact absurd rfl hne
        | cons e rest => simp at hnone

/-- Witness for C10 at the mapping `{"a": "ACGT"}` with `wrapAfter = 1`. -/
theorem writeFasta_wrap_typeerror_witness :
    (writeFasta [("a", "ACGT")] 1).2 = some .typeError ∧
    (writeFasta [("a", "ACGT")] 1).1 = ["> " ++ (([("a", "ACGT")] :
      List (String × String)).headD ("", "")).1] ∧
    (∀ w' : Int, (writeFasta [("a", "ACGT")] w').2 = none → w' = 0) :=
  writeFasta_wrap_typeerror [("a", "ACGT")] 1 (by decide) (by decide)

end Npysearch